import Mathlib

/-!
Verification development for the SX1280 QO-100 SSB transmitter firmware.

The firmware (a single C translation unit plus USB descriptor glue) turns a
USB audio stream into per-sample frequency/power commands for an SX1280
transceiver.  This file gives a shallow embedding of the relevant parts of
the code: `float` arithmetic is idealised as exact rational (`ℚ`) arithmetic,
machine integers become `ℕ`/`ℤ`, and the few transcendental library calls
(`sqrtf`, `atan2f`, `log10f`, `powf`, `cosf`, `sinf`) that the verified
properties do not depend on numerically are abstracted as function
parameters.  Every definition mirrors the corresponding C function or inline
code region; theorems at the end settle the specification claims.
-/

namespace SX1280TX

/-! ## Compile-time constants (from the `#define` block of the main file) -/

/-- `WAV_SAMPLE_RATE`: the fixed audio processing rate in Hz. -/
def WAV_SAMPLE_RATE : ℕ := 8000

/-- `PWR_MAX_DBM`: maximum transmit power supported by the quantizer. -/
def PWR_MAX_DBM : ℤ := 13

/-- `PWR_MIN_DBM`: minimum transmit power supported by the quantizer. -/
def PWR_MIN_DBM : ℤ := -18

/-- `GATE_A_REF` (`0.01f`): envelope threshold below which duty gating is used. -/
def GATE_A_REF : ℚ := 1/100

/-- `PLL_STEP_HZ = 52000000 / 2^18`: the transceiver frequency grid step. -/
def PLL_STEP_HZ : ℚ := 52000000 / 262144

/-- `F_OFF_LIMIT_HZ`: hard clamp on the instantaneous frequency deviation. -/
def F_OFF_LIMIT_HZ : ℚ := 3500

/-- `SILENCE_SECONDS`: idle time before the silence reset triggers. -/
def SILENCE_SECONDS : ℕ := 2

/-- `silence_samples = WAV_SAMPLE_RATE * SILENCE_SECONDS` (from `main`). -/
def silence_samples : ℕ := WAV_SAMPLE_RATE * SILENCE_SECONDS

/-- `HILBERT_TAPS`: odd tap count of the Hilbert FIR filter. -/
def HILBERT_TAPS : ℕ := 247

/-- `M = (HILBERT_TAPS - 1) / 2`: the group delay of the Hilbert filter. -/
def hilbertM : ℕ := (HILBERT_TAPS - 1) / 2

/-- `BLOCK_SAMPLES`: samples per command block. -/
def BLOCK_SAMPLES : ℕ := 256

/-- `NUM_BLOCKS`: slots in the command-block ring. -/
def NUM_BLOCKS : ℕ := 8

/-- `DITHER_SUBSTEPS`: hardware-write sub-intervals per sample on core 1. -/
def DITHER_SUBSTEPS : ℕ := 4

/-- `sample_period_us = 1000000 / WAV_SAMPLE_RATE` (from `core1_radio_apply_loop`). -/
def sample_period_us : ℕ := 1000000 / WAV_SAMPLE_RATE

/-- `USB_RB_FRAMES`: capacity (in frames) of the USB audio ring buffer. -/
def USB_RB_FRAMES : ℕ := 8192

/-- `IQ_GAIN_CORR` (`1.00f`): optional I/Q gain correction, identity by default. -/
def IQ_GAIN_CORR : ℚ := 1

/-- `AUDIO_BP_MAX_STAGES`: compile-time bandpass stage allocation. -/
def AUDIO_BP_MAX_STAGES : ℕ := 10

/-! ## Biquad filters (`biquad_t`, `biquad_process`, `biquad_reset`) -/

/-- The five coefficients and two state values of `biquad_t`. -/
structure Biquad where
  b0 : ℚ
  b1 : ℚ
  b2 : ℚ
  a1 : ℚ
  a2 : ℚ
  z1 : ℚ
  z2 : ℚ
deriving DecidableEq

/-- `biquad_process`: transposed direct-form-II step; returns the updated
state together with the output sample. -/
def biquad_process (q : Biquad) (x : ℚ) : Biquad × ℚ :=
  let y := q.b0 * x + q.z1
  ({ q with z1 := q.b1 * x - q.a1 * y + q.z2, z2 := q.b2 * x - q.a2 * y }, y)

/-- `biquad_reset`: zero the two state values, keeping the coefficients. -/
def biquad_reset (q : Biquad) : Biquad :=
  { q with z1 := 0, z2 := 0 }

/-- The first `n` stages of a biquad cascade applied in sequence
(the `for (i < cfg.bp_stages)` loops in `main`); stages beyond `n`
are returned untouched. -/
def biquad_chain : ℕ → List Biquad → ℚ → List Biquad × ℚ
  | _, [], x => ([], x)
  | 0, qs, x => (qs, x)
  | n + 1, q :: qs, x =>
      let p := biquad_process q x
      let rest := biquad_chain n qs p.2
      (p.1 :: rest.1, rest.2)

/-! ## Compressor (`compressor_t`, `compressor_gain_db`, `compressor_process`) -/

/-- The non-envelope fields of `compressor_t`. -/
structure CompParams where
  a_att : ℚ
  a_rel : ℚ
  thr_db : ℚ
  ratioQ : ℚ
  makeup_lin : ℚ
  knee_db : ℚ

/-- `compressor_gain_db`: soft-knee gain computation in dB.  Mirrors the C
function exactly, including the hard-knee fallback for `knee_db ≤ 0`. -/
def compressor_gain_db (thr r knee in_db : ℚ) : ℚ :=
  if knee ≤ 0 then
    if in_db ≤ thr then 0
    else (thr + (in_db - thr) / r) - in_db
  else
    let x0 := thr - knee * (1/2)
    let x1 := thr + knee * (1/2)
    if in_db ≤ x0 then 0
    else if x1 ≤ in_db then (thr + (in_db - thr) / r) - in_db
    else
      let t := (in_db - x0) / (x1 - x0)
      let out1 := thr + (x1 - thr) / r
      let g1 := out1 - x1
      g1 * t * t

/-- `compressor_process`: envelope follower plus gain application.  The
transcendental `log10f`/`powf` calls are abstracted as `log10q`/`pow10q`.
Returns the updated envelope and the output sample. -/
def compressor_process (log10q pow10q : ℚ → ℚ) (c : CompParams) (env x : ℚ) :
    ℚ × ℚ :=
  let ax := |x|
  let env1 :=
    if env < ax then c.a_att * env + (1 - c.a_att) * ax
    else c.a_rel * env + (1 - c.a_rel) * ax
  let envm := max env1 (1/100000000)
  let in_db := 20 * log10q envm
  let g_db := compressor_gain_db c.thr_db c.ratioQ c.knee_db in_db
  let g_lin := pow10q (g_db / 20) * c.makeup_lin
  (env1, x * g_lin)

/-! ## Duty gating and the two delta-sigma accumulators -/

/-- `duty_from_A`: duty fraction for envelope `A` (with `GATE_SHAPE == 1`,
the linear branch is compiled in). -/
def duty_from_A (A : ℚ) : ℚ :=
  if A ≤ 0 then 0
  else if 1 ≤ A / GATE_A_REF then 1
  else A / GATE_A_REF

/-- The frequency-dither quantizer step (`main`, producer loop): floor the
desired fractional step count, accumulate the remainder, and emit one extra
step whenever the accumulator reaches one.  Returns the emitted step count
and the new accumulator. -/
def freq_quant (acc want : ℚ) : ℤ × ℚ :=
  let Nf : ℤ := ⌊want⌋
  let ffrac := want - (Nf : ℚ)
  let acc1 := acc + ffrac
  if 1 ≤ acc1 then (Nf + 1, acc1 - 1) else (Nf, acc1)

/-- The duty-gating accumulator step (`main`, producer loop, `duty < 1`
branch): accumulate the duty fraction and enable transmission whenever the
accumulator reaches one.  Returns the transmit flag and the new accumulator. -/
def tx_gate (acc duty : ℚ) : Bool × ℚ :=
  if 1 ≤ acc + duty then (true, acc + duty - 1) else (false, acc + duty)

/-- The power/duty selection of the producer loop (`main`, lines following
`duty_from_A`): below full duty, transmit at minimum power gated by
`tx_gate`; otherwise bracket the desired dBm value between two integer
levels and dither the fraction through the power accumulator.  Returns
`(p_chosen, tx_on, p_acc', tx_acc')`. -/
def power_quantize (log10q : ℚ → ℚ) (pwr_max : ℤ) (amp_gain amp_min_a : ℚ)
    (A p_acc tx_acc : ℚ) : ℤ × Bool × ℚ × ℚ :=
  let duty := duty_from_A A
  if duty < 1 then
    let g := tx_gate tx_acc duty
    (PWR_MIN_DBM, g.1, p_acc, g.2)
  else
    let Aeff0 := A * amp_gain
    let Aeff := if Aeff0 < amp_min_a then amp_min_a else Aeff0
    let p_raw := (pwr_max : ℚ) + 20 * log10q Aeff
    let p_des1 := if (pwr_max : ℚ) < p_raw then (pwr_max : ℚ) else p_raw
    let p_des := if p_des1 < (PWR_MIN_DBM : ℚ) then (PWR_MIN_DBM : ℚ) else p_des1
    let p_low0 : ℤ := ⌊p_des⌋
    let p_high0 : ℤ := p_low0 + 1
    let p_low := if p_low0 < PWR_MIN_DBM then PWR_MIN_DBM else p_low0
    let p_high := if pwr_max < p_high0 then pwr_max else p_high0
    let frac0 := p_des - (p_low : ℚ)
    let frac1 := if frac0 < 0 then 0 else frac0
    let frac := if 1 < frac1 then 1 else frac1
    let p_acc1 := p_acc + frac
    if 1 ≤ p_acc1 ∧ p_high ≠ p_low then (p_high, true, p_acc1 - 1, tx_acc)
    else (p_low, true, p_acc1, tx_acc)

/-! ## Hilbert delay line (`hilbert_reset`, `hilbert_process`) -/

/-- The Hilbert delay line: circular buffer `hilb_buf` plus write index
`hilb_idx`.  The static coefficient table `hilb_h` (computed once by
`hilbert_init` from windowed ideal Hilbert taps, hence transcendental) is
passed separately as an abstract table. -/
structure HilbState where
  buf : Fin HILBERT_TAPS → ℚ
  idx : ℕ

/-- `hilbert_reset` / the buffer part of `hilbert_init`: zero the delay
line and the write index. -/
def hilbert_zero : HilbState := ⟨fun _ => 0, 0⟩

/-- Evidence that reducing an index modulo `HILBERT_TAPS` lands in range. -/
def hilbFin (n : ℕ) : Fin HILBERT_TAPS :=
  ⟨n % HILBERT_TAPS, Nat.mod_lt _ (by norm_num [HILBERT_TAPS])⟩

/-- `hilbert_process`: write the new sample, convolve with the coefficient
table `h`, read the group-delay-matched in-phase tap, and advance the index.
Returns `(new state, quadrature output y, in-phase output i_delayed)`. -/
def hilbert_process (h : Fin HILBERT_TAPS → ℚ) (s : HilbState) (x : ℚ) :
    HilbState × ℚ × ℚ :=
  let buf1 := Function.update s.buf (hilbFin s.idx) x
  let y := ∑ n : Fin HILBERT_TAPS, h n * buf1 (hilbFin (s.idx + HILBERT_TAPS - (n : ℕ)))
  let i_delayed := buf1 (hilbFin (s.idx + HILBERT_TAPS - hilbertM))
  let idx1 := s.idx + 1
  ({ buf := buf1, idx := if HILBERT_TAPS ≤ idx1 then 0 else idx1 }, y, i_delayed)

/-- State of the Hilbert filter after feeding it the samples of `xs` in
order, starting from the freshly initialised (all-zero) delay line. -/
def hilbert_state (h : Fin HILBERT_TAPS → ℚ) (xs : List ℚ) : HilbState :=
  xs.foldl (fun s x => (hilbert_process h s x).1) hilbert_zero

/-- The in-phase output of call number `n` (0-based) of `hilbert_process`
when the filter, starting from the initialised state, is fed the sample
stream `xs`. -/
def hilbert_out_i (h : Fin HILBERT_TAPS → ℚ) (xs : List ℚ) (n : ℕ) : ℚ :=
  (hilbert_process h (hilbert_state h (xs.take n)) (xs.getD n 0)).2.2

/-! ## Producer loop (`main`, core 0): per-sample DSP and RF quantization -/

/-- One per-sample RF command (`sample_cmd_t`).  `p_dbm` is kept as `ℤ`
(the C code stores it in an `int8_t`; all values produced lie in the chip's
dBm range). -/
structure SampleCmd where
  freq_steps : ℤ
  p_dbm : ℤ
  tx_on : Bool
deriving DecidableEq

/-- The per-block-constant inputs of the producer's per-sample code:
the sanitized configuration snapshot `cfg_local`, the compressor
parameters, the Hilbert coefficient table, the I/Q rotation constants, and
abstract stand-ins for the transcendental library functions. -/
structure ProducerParams where
  enable_eq : Bool
  enable_comp : Bool
  enable_bandpass : Bool
  bp_stages : ℕ
  comp_out_limit : ℚ
  comp : CompParams
  amp_gain : ℚ
  amp_min_a : ℚ
  pwr_max : ℤ
  base_steps : ℤ
  h : Fin HILBERT_TAPS → ℚ
  cphi : ℚ
  sphi : ℚ
  piq : ℚ
  sqrtq : ℚ → ℚ
  atan2q : ℚ → ℚ → ℚ
  log10q : ℚ → ℚ
  pow10q : ℚ → ℚ

/-- All mutable per-sample state of the producer loop. -/
structure ProducerState where
  silence_ctr : ℕ
  eq_low : Biquad
  eq_high : Biquad
  comp_env : ℚ
  bp_hpf : List Biquad
  bp_lpf : List Biquad
  hilb : HilbState
  theta_prev : ℚ
  f_acc : ℚ
  p_acc : ℚ
  tx_acc : ℚ

/-- The one-shot silence reset (`main`, the `silence_ctr == silence_samples`
branch): zero every filter state, the compressor envelope, the Hilbert
delay line and all RF accumulators in the same step, and bump the counter
past the threshold so the reset fires only once. -/
def silence_reset_state (s : ProducerState) : ProducerState :=
  { silence_ctr := silence_samples + 1
    eq_low := biquad_reset s.eq_low
    eq_high := biquad_reset s.eq_high
    comp_env := 0
    bp_hpf := s.bp_hpf.map biquad_reset
    bp_lpf := s.bp_lpf.map biquad_reset
    hilb := hilbert_zero
    theta_prev := 0
    f_acc := 0
    p_acc := 0
    tx_acc := 0 }

/-- The silence-detection logic at the head of the producer's per-sample
body: count consecutive samples with `|x| < 1e-5` (saturating at the
threshold) and apply the one-shot reset when the counter reaches
`silence_samples`. -/
def silence_update (s : ProducerState) (x : ℚ) : ProducerState :=
  let ctr1 :=
    if |x| < 1/100000 then
      if s.silence_ctr < silence_samples then s.silence_ctr + 1 else s.silence_ctr
    else 0
  if ctr1 = silence_samples then silence_reset_state s
  else { s with silence_ctr := ctr1 }

/-- The shaping chain and RF synthesis of the producer's per-sample body
(everything after the silence check): EQ, compressor with output limiter,
bandpass cascade, Hilbert split, I/Q correction rotation, envelope and
phase extraction, phase differencing with wrap, deviation clamp, and the
frequency/power quantizers.  Returns the new state and the emitted command. -/
def chain_process (P : ProducerParams) (s : ProducerState) (x : ℚ) :
    ProducerState × SampleCmd :=
  let eqr :=
    if P.enable_eq then
      let r1 := biquad_process s.eq_low x
      let r2 := biquad_process s.eq_high r1.2
      (r1.1, r2.1, r2.2)
    else (s.eq_low, s.eq_high, x)
  let cr :=
    if P.enable_comp then
      let c := compressor_process P.log10q P.pow10q P.comp s.comp_env eqr.2.2
      let xl := if P.comp_out_limit < c.2 then P.comp_out_limit else c.2
      let xl2 := if xl < -P.comp_out_limit then -P.comp_out_limit else xl
      (c.1, xl2)
    else (s.comp_env, eqr.2.2)
  let br :=
    if P.enable_bandpass then
      let r1 := biquad_chain P.bp_stages s.bp_hpf cr.2
      let r2 := biquad_chain P.bp_stages s.bp_lpf r1.2
      (r1.1, r2.1, r2.2)
    else (s.bp_hpf, s.bp_lpf, cr.2)
  let hr := hilbert_process P.h s.hilb br.2.2
  let Qv := hr.2.1
  let Iv := hr.2.2
  let Iq := Iv
  let Qq := Qv * IQ_GAIN_CORR
  let I2 := Iq * P.cphi - Qq * P.sphi
  let Q2 := Iq * P.sphi + Qq * P.cphi
  let A := P.sqrtq (I2 * I2 + Q2 * Q2)
  let theta := P.atan2q Q2 I2
  let d0 := theta - s.theta_prev
  let d1 := if P.piq < d0 then d0 - 2 * P.piq else d0
  let dtheta := if d1 < -P.piq then d1 + 2 * P.piq else d1
  let f_off0 := dtheta * (WAV_SAMPLE_RATE : ℚ) / (2 * P.piq)
  let f_off1 := if F_OFF_LIMIT_HZ < f_off0 then F_OFF_LIMIT_HZ else f_off0
  let f_off := if f_off1 < -F_OFF_LIMIT_HZ then -F_OFF_LIMIT_HZ else f_off1
  let want := f_off / PLL_STEP_HZ
  let fq := freq_quant s.f_acc want
  let cur_steps := P.base_steps + fq.1
  let pq := power_quantize P.log10q P.pwr_max P.amp_gain P.amp_min_a A s.p_acc s.tx_acc
  ({ s with
      eq_low := eqr.1, eq_high := eqr.2.1, comp_env := cr.1,
      bp_hpf := br.1, bp_lpf := br.2.1, hilb := hr.1,
      theta_prev := theta, f_acc := fq.2,
      p_acc := pq.2.2.1, tx_acc := pq.2.2.2 },
   ⟨cur_steps, pq.1, pq.2.1⟩)

/-- One full iteration of the producer's per-sample body. -/
def producer_step (P : ProducerParams) (s : ProducerState) (x : ℚ) :
    ProducerState × SampleCmd :=
  chain_process P (silence_update s x) x

/-- Producer state after processing the sample list `xs`. -/
def producer_run (P : ProducerParams) (s : ProducerState) (xs : List ℚ) :
    ProducerState :=
  xs.foldl (fun t x => (producer_step P t x).1) s

/-! ## Adaptive resampler (`usb_audio_get_mono_8k`)

The USB ring buffer is modelled as a FIFO list of stereo frames (front =
oldest frame, i.e. the next one `usb_rb_pop` would return); the buffer fill
level used by the adaptive-rate logic is the list length. -/

/-- A stereo 16-bit frame (`stereo16_t`); fields are the exact `int16_t`
values as integers. -/
structure StereoFrame where
  l : ℤ
  r : ℤ
deriving DecidableEq

/-- The `static` locals of `usb_audio_get_mono_8k` that persist between
calls: rate tracking, Q16.16 phase, the four held frames, and the priming
flag. -/
structure ResampState where
  src_rate : ℕ
  base_step : ℕ
  smooth_step : ℕ
  phase : ℕ
  sm1 : StereoFrame
  s0 : StereoFrame
  s1 : StereoFrame
  s2 : StereoFrame
  primed : Bool
deriving DecidableEq

/-- `usb_rb_pop` with a fallback value for an empty buffer (the C call
sites substitute either a zero frame or the held last frame). -/
def popOr (d : StereoFrame) : List StereoFrame → StereoFrame × List StereoFrame
  | [] => (d, [])
  | f :: t => (f, t)

/-- Rate tracking at the head of `usb_audio_get_mono_8k`: a zero reported
rate falls back to 48000; on a rate change (or before the first step
computation) the base and smoothed Q16.16 steps are recomputed. -/
def resamp_rate_update (sr0 : ℕ) (s : ResampState) : ResampState :=
  let sr := if sr0 = 0 then 48000 else sr0
  if sr ≠ s.src_rate ∨ s.base_step = 0 then
    let b := sr * 65536 / WAV_SAMPLE_RATE
    { s with src_rate := sr, base_step := b, smooth_step := b }
  else s

/-- The buffer-level-driven step adaptation with heavy smoothing
(move 1/256 of the way towards the target step each sample). -/
def resamp_adapt (fill : ℕ) (s : ResampState) : ResampState :=
  let target_fill := USB_RB_FRAMES / 2
  let target_step :=
    if target_fill < fill then
      s.base_step + s.base_step * (fill - target_fill) / (USB_RB_FRAMES * 10)
    else if fill < target_fill then
      s.base_step - s.base_step * (target_fill - fill) / (USB_RB_FRAMES * 10)
    else s.base_step
  let sm :=
    if s.smooth_step < target_step then
      let v := s.smooth_step + ((target_step - s.smooth_step) / 256 + 1)
      if target_step < v then target_step else v
    else if target_step < s.smooth_step then
      let v := s.smooth_step - ((s.smooth_step - target_step) / 256 + 1)
      if v < target_step then target_step else v
    else s.smooth_step
  { s with smooth_step := sm }

/-- The one-shot priming of the interpolation state: on the first call ever
the four held frames are popped from the ring buffer (zero-filled when the
buffer runs out) and the phase is cleared. -/
def resamp_prime (s : ResampState) (ring : List StereoFrame) :
    ResampState × List StereoFrame :=
  if s.primed then (s, ring) else
    let p1 := popOr ⟨0, 0⟩ ring
    let p2 := popOr ⟨0, 0⟩ p1.2
    let p3 := popOr ⟨0, 0⟩ p2.2
    let p4 := popOr ⟨0, 0⟩ p3.2
    ({ s with sm1 := p1.1, s0 := p2.1, s1 := p3.1, s2 := p4.1,
              phase := 0, primed := true }, p4.2)

/-- One iteration of the phase-overflow loop body: subtract one whole input
frame from the phase and shift the four held frames, holding the last frame
if the ring buffer is empty. -/
def resamp_shift (s : ResampState) (ring : List StereoFrame) :
    ResampState × List StereoFrame :=
  let p := popOr s.s2 ring
  ({ s with sm1 := s.s0, s0 := s.s1, s1 := s.s2, s2 := p.1 }, p.2)

/-- The `while (phase_q16 >= 1 << 16)` loop, run as exactly
`phase / 65536` iterations (each iteration subtracts `65536`, so this fuel
is precisely the number of times the C loop body executes). -/
def resamp_advance_iter : ℕ → ResampState → List StereoFrame →
    ResampState × List StereoFrame
  | 0, s, ring => (s, ring)
  | k + 1, s, ring =>
      if 65536 ≤ s.phase then
        let sh := resamp_shift { s with phase := s.phase - 65536 } ring
        resamp_advance_iter k sh.1 sh.2
      else (s, ring)

/-- Advance the phase by the smoothed step and pull input frames for every
whole-frame overflow. -/
def resamp_advance (s : ResampState) (ring : List StereoFrame) :
    ResampState × List StereoFrame :=
  let s1 := { s with phase := s.phase + s.smooth_step }
  resamp_advance_iter (s1.phase / 65536) s1 ring

/-- `clamp16`: saturate to the `int16_t` range. -/
def clamp16 (x : ℤ) : ℤ :=
  if 32767 < x then 32767 else if x < -32768 then -32768 else x

/-- Truncation toward zero, the semantics of C float-to-int casts. -/
def qtrunc (q : ℚ) : ℤ := if q < 0 then -⌊-q⌋ else ⌊q⌋

/-- The cubic Hermite interpolation tail of `usb_audio_get_mono_8k`:
interpolate both channels at the fractional phase, average to mono, cast
and clamp to 16 bits. -/
def hermite_mono (s : ResampState) : ℤ :=
  let t : ℚ := (s.phase : ℚ) / 65536
  let t2 := t * t
  let t3 := t2 * t
  let h00 := 2 * t3 - 3 * t2 + 1
  let h10 := t3 - 2 * t2 + t
  let h01 := -2 * t3 + 3 * t2
  let h11 := t3 - t2
  let m0l := ((s.s1.l - s.sm1.l : ℤ) : ℚ) * (1/2)
  let m1l := ((s.s2.l - s.s0.l : ℤ) : ℚ) * (1/2)
  let lch := h00 * (s.s0.l : ℚ) + h10 * m0l + h01 * (s.s1.l : ℚ) + h11 * m1l
  let m0r := ((s.s1.r - s.sm1.r : ℤ) : ℚ) * (1/2)
  let m1r := ((s.s2.r - s.s0.r : ℤ) : ℚ) * (1/2)
  let rch := h00 * (s.s0.r : ℚ) + h10 * m0r + h01 * (s.s1.r : ℚ) + h11 * m1r
  let mono := (lch + rch) * (1/2)
  clamp16 (qtrunc mono)

/-- `usb_audio_get_mono_8k`: one full call — rate tracking, adaptive step,
one-shot priming, phase advance, interpolation.  Returns the mono output
sample, the new persistent state, and the remaining ring buffer. -/
def usb_audio_get_mono_8k (sr0 : ℕ) (s : ResampState)
    (ring : List StereoFrame) : ℤ × ResampState × List StereoFrame :=
  let s1 := resamp_rate_update sr0 s
  let s2 := resamp_adapt ring.length s1
  let pr := resamp_prime s2 ring
  let ad := resamp_advance pr.1 pr.2
  (hermite_mono ad.1, ad.1, ad.2)

/-- Modelled from the spec: the resampler as §4.1 describes it, where the
interpolation state (the fractional phase accumulator and the four held
frames) is reseeded from the current ring-buffer contents not only on
start but also whenever the host-reported rate changes.  This comparator
exists only to be measured against `usb_audio_get_mono_8k`; it differs by
forcing the priming step whenever the reported rate differs from the
tracked one. -/
def usb_audio_get_mono_8k_specReseed (sr0 : ℕ) (s : ResampState)
    (ring : List StereoFrame) : ℤ × ResampState × List StereoFrame :=
  let sr := if sr0 = 0 then 48000 else sr0
  let reseed := sr ≠ s.src_rate ∨ s.base_step = 0
  let s1 := resamp_rate_update sr0 s
  let s2 := resamp_adapt ring.length s1
  let s3 := if reseed then { s2 with primed := false } else s2
  let pr := resamp_prime s3 ring
  let ad := resamp_advance pr.1 pr.2
  (hermite_mono ad.1, ad.1, ad.2)

/-! ## Configuration sanitizing and console numeric handling
(`cfg_sanitize`, `cdc_handle_line`) -/

/-- `audio_cfg_t`: the tunable DSP/RF-shaping parameters. -/
structure AudioCfg where
  enable_bandpass : Bool
  enable_eq : Bool
  enable_comp : Bool
  bp_lo_hz : ℚ
  bp_hi_hz : ℚ
  bp_stages : ℕ
  eq_low_hz : ℚ
  eq_low_db : ℚ
  eq_high_hz : ℚ
  eq_high_db : ℚ
  eq_slope : ℚ
  comp_thr_db : ℚ
  comp_ratioQ : ℚ
  comp_attack_ms : ℚ
  comp_release_ms : ℚ
  comp_makeup_db : ℚ
  comp_knee_db : ℚ
  comp_out_limit : ℚ
  amp_gain : ℚ
  amp_min_a : ℚ
deriving DecidableEq

/-- The default configuration (the initialiser of `g_cfg`). -/
def audio_cfg_default : AudioCfg :=
  { enable_bandpass := true
    enable_eq := true
    enable_comp := true
    bp_lo_hz := 50
    bp_hi_hz := 2900
    bp_stages := 10
    eq_low_hz := 180
    eq_low_db := 0
    eq_high_hz := 2380
    eq_high_db := 24
    eq_slope := 2
    comp_thr_db := -(5/2)
    comp_ratioQ := 14
    comp_attack_ms := 1613/10
    comp_release_ms := 1595
    comp_makeup_db := 1
    comp_knee_db := 1
    comp_out_limit := 976/1000
    amp_gain := 228/100
    amp_min_a := 2/1000000 }

/-- `cfg_sanitize`: clamp every numeric configuration field to its safe
range, in exactly the order the C code applies the clamps. -/
def cfg_sanitize (c : AudioCfg) (fs : ℚ) : AudioCfg :=
  let bp_lo := if c.bp_lo_hz < 50 then 50 else c.bp_lo_hz
  let max_hi := fs * (45/100)
  let bp_hi1 := if max_hi < c.bp_hi_hz then max_hi else c.bp_hi_hz
  let bp_hi := if bp_hi1 ≤ bp_lo + 50 then bp_lo + 50 else bp_hi1
  let eq_low_hz1 := if c.eq_low_hz < 50 then 50 else c.eq_low_hz
  let eq_low_hz := if fs * (45/100) < eq_low_hz1 then fs * (45/100) else eq_low_hz1
  let eq_high_hz1 := if c.eq_high_hz < 50 then 50 else c.eq_high_hz
  let eq_high_hz := if fs * (45/100) < eq_high_hz1 then fs * (45/100) else eq_high_hz1
  let eq_slope1 := if c.eq_slope < 3/10 then 3/10 else c.eq_slope
  let eq_slope := if 2 < eq_slope1 then 2 else eq_slope1
  let comp_ratioQ := if c.comp_ratioQ < 1 then 1 else c.comp_ratioQ
  let comp_attack := if c.comp_attack_ms < 1/10 then 1/10 else c.comp_attack_ms
  let comp_release := if c.comp_release_ms < 1 then 1 else c.comp_release_ms
  let outlim1 := if c.comp_out_limit < 5/100 then 5/100 else c.comp_out_limit
  let outlim := if 999/1000 < outlim1 then 999/1000 else outlim1
  let amp_gain := if c.amp_gain < 1/100 then 1/100 else c.amp_gain
  let amp_min_a := if c.amp_min_a < 1/1000000000 then 1/1000000000 else c.amp_min_a
  let bp_stages1 := if c.bp_stages < 1 then 1 else c.bp_stages
  let bp_stages := if AUDIO_BP_MAX_STAGES < bp_stages1 then AUDIO_BP_MAX_STAGES else bp_stages1
  { c with
      bp_lo_hz := bp_lo, bp_hi_hz := bp_hi, bp_stages := bp_stages,
      eq_low_hz := eq_low_hz, eq_high_hz := eq_high_hz, eq_slope := eq_slope,
      comp_ratioQ := comp_ratioQ, comp_attack_ms := comp_attack,
      comp_release_ms := comp_release, comp_out_limit := outlim,
      amp_gain := amp_gain, amp_min_a := amp_min_a }

/-- The numeric handling of the `freq <Hz>` console command
(`cdc_handle_line`): reject (with an error reply) any frequency outside
the hardware-safe band, otherwise accept it unchanged.  `none` models the
`ERR` reply path. -/
def freq_command (f : ℕ) : Option ℕ :=
  if f < 2400000000 ∨ 2500000000 < f then none else some f

/-- The numeric handling of the `ppm <value>` console command
(`cdc_handle_line`): a parsed value outside `[-100, 100]` is rejected with
an error reply (`none`); an in-range value is stored unchanged. -/
def ppm_command (p : ℚ) : Option ℚ :=
  if p < -100 ∨ 100 < p then none else some p

/-- The numeric handling of the `jitter <µs>` console command: the parsed
value is clamped to `[0, 30]` and truncated to an integer microsecond
count; it is never rejected. -/
def jitter_command (j : ℚ) : ℤ :=
  let j1 := if j < 0 then 0 else j
  let j2 := if 30 < j1 then 30 else j1
  qtrunc j2

/-- The numeric handling of the `txpwr <dBm>` console command: the parsed
value is clamped to `[PWR_MIN_DBM, PWR_MAX_DBM]` and truncated to an
integer dBm count; it is never rejected. -/
def txpwr_command (p : ℚ) : ℤ :=
  let p1 := if p < (PWR_MIN_DBM : ℚ) then (PWR_MIN_DBM : ℚ) else p
  let p2 := if (PWR_MAX_DBM : ℚ) < p1 then (PWR_MAX_DBM : ℚ) else p1
  qtrunc p2

/-! ## Consumer loop (`core1_radio_apply_loop`, core 1) -/

/-- A hardware write to the transceiver: the three primitive commands the
timing loop can issue. -/
inductive RadioCmd
  | txCW : RadioCmd
  | standby : RadioCmd
  | setFreq : ℤ → RadioCmd
  | setPwr : ℤ → RadioCmd
deriving DecidableEq

/-- The persistent state of `core1_radio_apply_loop`: underrun counter,
last commanded frequency/power/transmit values, and the block ring index. -/
structure ConsState where
  underruns : ℕ
  last_steps : ℤ
  last_p : ℤ
  last_tx : Bool
  cons_block : ℕ
deriving DecidableEq

/-- The body of the inner `substeps` loop on core 1: issue a
transmit-state, frequency, or power command exactly when it differs from
the previously commanded value, in that order.  Returns the new
`(last_steps, last_p, last_tx)` triple and the list of issued commands. -/
def cons_substep (c : SampleCmd) (l : ℤ × ℤ × Bool) :
    (ℤ × ℤ × Bool) × List RadioCmd :=
  let t := if c.tx_on ≠ l.2.2 then
      (([if c.tx_on then RadioCmd.txCW else RadioCmd.standby] : List RadioCmd), c.tx_on)
    else ([], l.2.2)
  let f := if c.freq_steps ≠ l.1 then
      (([RadioCmd.setFreq c.freq_steps] : List RadioCmd), c.freq_steps)
    else ([], l.1)
  let p := if c.p_dbm ≠ l.2.1 then
      (([RadioCmd.setPwr c.p_dbm] : List RadioCmd), c.p_dbm)
    else ([], l.2.1)
  ((f.2, p.2, t.2), t.1 ++ f.1 ++ p.1)

/-- `k` iterations of the substep body for the same sample. -/
def cons_sample_aux : ℕ → SampleCmd → (ℤ × ℤ × Bool) →
    (ℤ × ℤ × Bool) × List RadioCmd
  | 0, _, l => (l, [])
  | k + 1, c, l =>
      let r := cons_substep c l
      let rest := cons_sample_aux k c r.1
      (rest.1, r.2 ++ rest.2)

/-- Handling of one drained sample: the substep body runs
`DITHER_SUBSTEPS` times (the hardware-write checks are repeated on each
sub-interval of the sample period). -/
def cons_sample (c : SampleCmd) (l : ℤ × ℤ × Bool) :
    (ℤ × ℤ × Bool) × List RadioCmd :=
  cons_sample_aux DITHER_SUBSTEPS c l

/-- Draining one command block, sample by sample. -/
def cons_drain (blk : List SampleCmd) (l : ℤ × ℤ × Bool) :
    (ℤ × ℤ × Bool) × List RadioCmd :=
  blk.foldl (fun acc c =>
    let r := cons_sample c acc.1
    (r.1, acc.2 ++ r.2)) (l, [])

/-- One iteration of the outer `while (true)` loop of
`core1_radio_apply_loop` (CW-test mode off): `ready` is the value of
`g_block_ready` for the current block, `blk` its contents.  On a miss the
underrun counter increments, no command is issued, the block position is
held, and the loop idles for one sample period; on a hit the block is
drained at one sample period per sample, its flag cleared, and the ring
index advanced.  Returns the new state, the issued commands, and the
number of microseconds the iteration paces out. -/
def cons_iter (s : ConsState) (ready : Bool) (blk : List SampleCmd) :
    ConsState × List RadioCmd × ℕ :=
  if ready then
    let d := cons_drain blk (s.last_steps, s.last_p, s.last_tx)
    ({ underruns := s.underruns,
       last_steps := d.1.1, last_p := d.1.2.1, last_tx := d.1.2.2,
       cons_block := (s.cons_block + 1) % NUM_BLOCKS },
     d.2, blk.length * sample_period_us)
  else
    ({ s with underruns := s.underruns + 1 }, [], sample_period_us)

/-! ## Iterated quantizer runs (for the convergence properties) -/

/-- Run the duty-gating accumulator for `n` samples at constant duty `d`,
starting from a zero accumulator; returns the number of samples on which
transmission was enabled, and the final accumulator. -/
def txGateRun (d : ℚ) : ℕ → ℕ × ℚ
  | 0 => (0, 0)
  | n + 1 =>
      let p := txGateRun d n
      let g := tx_gate p.2 d
      (p.1 + (if g.1 then 1 else 0), g.2)

/-- Run the frequency-dither quantizer for `n` samples at a constant target
step count `f`, starting from a zero accumulator; returns the number of
samples on which the extra step (one above the integer part `⌊f⌋`) was
emitted, and the final accumulator. -/
def freqQuantRun (f : ℚ) : ℕ → ℕ × ℚ
  | 0 => (0, 0)
  | n + 1 =>
      let p := freqQuantRun f n
      let q := freq_quant p.2 f
      (p.1 + (if q.1 = ⌊f⌋ + 1 then 1 else 0), q.2)

/-- First-order delta-sigma invariant: at constant duty `d ∈ [0, 1)` the
accumulator always equals the running target minus the emitted count and
stays in `[0, 1)`. -/
lemma txGateRun_invariant (d : ℚ) (h0 : 0 ≤ d) (h1 : d < 1) :
    ∀ n : ℕ, (txGateRun d n).2 = d * n - (txGateRun d n).1 ∧
      0 ≤ (txGateRun d n).2 ∧ (txGateRun d n).2 < 1 := by
  intro n
  induction n with
  | zero => simp [txGateRun]
  | succ n ih =>
      obtain ⟨heq, hlo, hhi⟩ := ih
      simp only [txGateRun, tx_gate]
      by_cases hc : 1 ≤ (txGateRun d n).2 + d
      · simp only [if_pos hc]
        refine ⟨?_, by linarith, by linarith⟩
        push_cast
        rw [heq]; ring
      · simp only [if_neg hc]
        refine ⟨?_, by linarith, by linarith⟩
        push_cast
        rw [heq]; ring

/-- The emitted count of the duty-gating run is exactly `⌊d·n⌋`. -/
lemma txGateRun_count (d : ℚ) (h0 : 0 ≤ d) (h1 : d < 1) (n : ℕ) :
    ((txGateRun d n).1 : ℤ) = ⌊d * n⌋ := by
  obtain ⟨heq, hlo, hhi⟩ := txGateRun_invariant d h0 h1 n
  symm
  rw [Int.floor_eq_iff]
  constructor
  · push_cast; linarith
  · push_cast; linarith

/-- At a fractional target `f ∈ [0, 1)` the frequency quantizer run and the
duty-gating run coincide (the integer part `⌊f⌋` is zero, so the fractional
remainder added each sample is `f` itself). -/
lemma freqQuantRun_eq_txGateRun (f : ℚ) (h0 : 0 ≤ f) (h1 : f < 1) :
    ∀ n : ℕ, freqQuantRun f n = txGateRun f n := by
  have hf : ⌊f⌋ = 0 := by
    rw [Int.floor_eq_zero_iff]
    exact ⟨h0, h1⟩
  intro n
  induction n with
  | zero => rfl
  | succ n ih =>
      simp only [freqQuantRun, txGateRun, ih, freq_quant, tx_gate, hf]
      by_cases hc : 1 ≤ (txGateRun f n).2 + (f - ((0 : ℤ) : ℚ))
      · have hc2 : 1 ≤ (txGateRun f n).2 + f := by push_cast at hc; linarith
        simp only [if_pos hc, if_pos hc2]
        norm_num
      · have hc2 : ¬ 1 ≤ (txGateRun f n).2 + f := by push_cast at hc; linarith
        simp only [if_neg hc, if_neg hc2]
        norm_num

/-- The integer floor is always within one of the nearest integer. -/
lemma floor_near_round (x : ℚ) : |(⌊x⌋ : ℚ) - (round x : ℤ)| ≤ 1 := by
  have h1 : ⌊x⌋ ≤ round x := by
    rw [round_eq]
    exact Int.floor_le_floor (by linarith)
  have h2 : round x ≤ ⌊x⌋ + 1 := by
    rw [round_eq]
    have : ⌊x + 1/2⌋ ≤ ⌊x + 1⌋ := Int.floor_le_floor (by linarith)
    rw [show x + 1 = x + (1 : ℤ) by push_cast; ring, Int.floor_add_int] at this
    omega
  have h1q : ((⌊x⌋ : ℤ) : ℚ) ≤ ((round x : ℤ) : ℚ) := by exact_mod_cast h1
  have h2q : ((round x : ℤ) : ℚ) ≤ ((⌊x⌋ : ℤ) : ℚ) + 1 := by exact_mod_cast h2
  rw [abs_le]
  exact ⟨by linarith, by linarith⟩

/-- C1: the frequency quantizer emits the integer part each sample,
accumulates the fractional remainder, and emits one extra step — with
exactly one subtracted from the accumulator — whenever the accumulator
reaches one (this is the definition of `freq_quant`); consequently, for a
constant fractional target `f ∈ [0, 1)` held for `N` samples from a zero
accumulator, the number of extra-step samples is exactly `⌊f·N⌋` and hence
within 1 of `round (f·N)`. -/
theorem freq_dither_convergence (f : ℚ) (N : ℕ) (h0 : 0 ≤ f) (h1 : f < 1) :
    ((freqQuantRun f N).1 : ℤ) = ⌊f * N⌋ ∧
    |((freqQuantRun f N).1 : ℚ) - (round (f * N) : ℤ)| ≤ 1 := by
  have hcnt : ((freqQuantRun f N).1 : ℤ) = ⌊f * N⌋ := by
    rw [freqQuantRun_eq_txGateRun f h0 h1 N]
    exact txGateRun_count f h0 h1 N
  refine ⟨hcnt, ?_⟩
  have : ((freqQuantRun f N).1 : ℚ) = ((⌊f * N⌋ : ℤ) : ℚ) := by
    exact_mod_cast congrArg (fun z : ℤ => (z : ℚ)) hcnt
  rw [this]
  exact floor_near_round (f * N)

/-- Witness for C1 at `f = 1/3`, `N = 10`. -/
theorem freq_dither_convergence_witness :
    (0 : ℚ) ≤ 1/3 ∧ (1/3 : ℚ) < 1 ∧
      (((freqQuantRun (1/3) 10).1 : ℤ) = ⌊(1/3 : ℚ) * 10⌋ ∧
       |((freqQuantRun (1/3) 10).1 : ℚ) - (round ((1/3 : ℚ) * 10) : ℤ)| ≤ 1) :=
  ⟨by norm_num, by norm_num,
   freq_dither_convergence (1/3) 10 (by norm_num) (by norm_num)⟩

/-- C2: for every envelope `0 ≤ A < GATE_A_REF` the quantizer takes the
duty-gating branch (`duty_from_A A < 1`), the duty fraction is exactly
`A / GATE_A_REF`, the commanded power is `PWR_MIN_DBM` on every such sample
(whatever the accumulators and the remaining configuration are), and over
`N` samples from a zero accumulator the fraction of transmit-enabled
samples is within `1/N` of `A / GATE_A_REF`. -/
theorem duty_gating_linearity (A : ℚ) (N : ℕ) (h0 : 0 ≤ A)
    (h1 : A < GATE_A_REF) (hN : 0 < N) :
    duty_from_A A < 1 ∧
    duty_from_A A = A / GATE_A_REF ∧
    (∀ (lq : ℚ → ℚ) (pm : ℤ) (ag am pa ta : ℚ),
        (power_quantize lq pm ag am A pa ta).1 = PWR_MIN_DBM) ∧
    |((txGateRun (duty_from_A A) N).1 : ℚ) / N - A / GATE_A_REF| ≤ 1 / N := by
  have hg : (0 : ℚ) < GATE_A_REF := by norm_num [GATE_A_REF]
  have hduty_eq : duty_from_A A = A / GATE_A_REF := by
    unfold duty_from_A
    rcases eq_or_lt_of_le h0 with h | h
    · rw [if_pos (le_of_eq h.symm), ← h, zero_div]
    · have hlt : A / GATE_A_REF < 1 := by
        rw [div_lt_one hg]; exact h1
      rw [if_neg (not_le.mpr h), if_neg (not_le.mpr hlt)]
  have hduty_lt : duty_from_A A < 1 := by
    rw [hduty_eq, div_lt_one hg]; exact h1
  have hd0 : 0 ≤ duty_from_A A := by
    rw [hduty_eq]; positivity
  refine ⟨hduty_lt, hduty_eq, ?_, ?_⟩
  · intro lq pm ag am pa ta
    simp only [power_quantize, if_pos hduty_lt]
  · set d := duty_from_A A with hd
    obtain ⟨heq, hlo, hhi⟩ := txGateRun_invariant d hd0 hduty_lt N
    have hcnt : ((txGateRun d N).1 : ℚ) = d * N - (txGateRun d N).2 := by
      linarith
    have hNq : (0 : ℚ) < N := by exact_mod_cast hN
    have hrw : ((txGateRun d N).1 : ℚ) / N - A / GATE_A_REF
        = -((txGateRun d N).2 / N) := by
      rw [hcnt, ← hduty_eq]
      field_simp
      ring
    rw [hrw, abs_neg, abs_of_nonneg (by positivity)]
    rw [div_le_div_iff_of_pos_right hNq]
    linarith

/-- Witness for C2 at `A = 1/200`, `N = 8`. -/
theorem duty_gating_linearity_witness :
    (0 : ℚ) ≤ 1/200 ∧ (1/200 : ℚ) < GATE_A_REF ∧ (0 : ℕ) < 8 ∧
      (duty_from_A (1/200) < 1 ∧
       duty_from_A (1/200) = (1/200 : ℚ) / GATE_A_REF ∧
       (∀ (lq : ℚ → ℚ) (pm : ℤ) (ag am pa ta : ℚ),
          (power_quantize lq pm ag am (1/200) pa ta).1 = PWR_MIN_DBM) ∧
       |((txGateRun (duty_from_A (1/200)) 8).1 : ℚ) / 8 - (1/200 : ℚ) / GATE_A_REF| ≤ 1 / 8) :=
  ⟨by norm_num, by norm_num [GATE_A_REF], by norm_num,
   duty_gating_linearity (1/200) 8 (by norm_num) (by norm_num [GATE_A_REF]) (by norm_num)⟩

/-- C4 counterexample: a PPM correction of 500 is not clamped to the ±100
bound — the `ppm` console command rejects it with an error reply. -/
theorem ppm_clamp_counterexample :
    ppm_command 500 = none ∧ ppm_command 500 ≠ some 100 := by
  have h : ppm_command 500 = none := by
    unfold ppm_command
    rw [if_pos (by norm_num)]
  exact ⟨h, by rw [h]; exact fun hc => Option.noConfusion hc⟩

/-- C4 (amended): numeric `set` configuration fields are sanitized by
clamping (in particular a bandpass high cutoff of `0.9 × 8000` is clamped
to `0.45 × 8000 = 3600`), and the `jitter`/`txpwr` commands clamp as well;
but the `ppm` command, like the `freq` command, rejects an out-of-range
value with an error instead of clamping, while an in-range value is stored
unchanged. -/
theorem cfg_clamping_amended :
    (cfg_sanitize { audio_cfg_default with bp_hi_hz := (9/10) * 8000 } 8000).bp_hi_hz
      = (45/100) * 8000 ∧
    ppm_command 500 = none ∧
    ppm_command 50 = some 50 ∧
    jitter_command 500 = 30 ∧
    txpwr_command 500 = 13 ∧
    freq_command 2300000000 = none := by
  refine ⟨?_, ?_, ?_, ?_, ?_, ?_⟩
  · unfold cfg_sanitize audio_cfg_default
    norm_num
  · unfold ppm_command
    rw [if_pos (by norm_num)]
  · unfold ppm_command
    rw [if_neg (by norm_num)]
  · unfold jitter_command qtrunc
    norm_num
  · unfold txpwr_command qtrunc PWR_MIN_DBM PWR_MAX_DBM
    norm_num
  · unfold freq_command
    rw [if_pos (by norm_num)]

/-- C7: the soft-knee compressor gain is zero at and below the lower knee
edge, equals the full-ratio gain `(thr + (in − thr)/r) − in` at and above
the upper knee edge, and inside the knee is the quadratic
`g1 · t²` with `t = (in − (thr − k/2))/k` and `g1` the full-ratio gain at
the upper knee edge — which meets the full-ratio curve continuously at
`thr + k/2` (the quadratic at `t = 1` is exactly `g1`). -/
theorem compressor_gain_soft_knee (thr r k in_db : ℚ) (hk : 0 < k) (hr : 1 ≤ r) :
    (in_db ≤ thr - k/2 → compressor_gain_db thr r k in_db = 0) ∧
    (thr + k/2 ≤ in_db →
      compressor_gain_db thr r k in_db = (thr + (in_db - thr) / r) - in_db) ∧
    (thr - k/2 < in_db → in_db < thr + k/2 →
      compressor_gain_db thr r k in_db =
        ((thr + ((thr + k/2) - thr) / r) - (thr + k/2))
          * ((in_db - (thr - k/2)) / k) ^ 2) ∧
    ((thr + ((thr + k/2) - thr) / r) - (thr + k/2)) * ((1 : ℚ)) ^ 2
      = (thr + ((thr + k/2) - thr) / r) - (thr + k/2) := by
  have hk0 : ¬ k ≤ 0 := not_le.mpr hk
  have hkne : k ≠ 0 := ne_of_gt hk
  have hrne : r ≠ 0 := by linarith
  refine ⟨?_, ?_, ?_, by ring⟩
  · intro h
    simp only [compressor_gain_db, if_neg hk0]
    rw [if_pos (by linarith)]
  · intro h
    simp only [compressor_gain_db, if_neg hk0]
    rw [if_neg (by linarith), if_pos (by linarith)]
  · intro h1 h2
    simp only [compressor_gain_db, if_neg hk0]
    rw [if_neg (by linarith), if_neg (by linarith)]
    have hx : thr + k * (1/2) - (thr - k * (1/2)) = k := by ring
    rw [hx]
    field_simp
    ring

/-- Witness for C7 at `thr = 0`, `r = 2`, `k = 2`, `in_db = 1/2`. -/
theorem compressor_gain_soft_knee_witness :
    (0 : ℚ) < 2 ∧ (1 : ℚ) ≤ 2 ∧
    (((1/2 : ℚ) ≤ 0 - 2/2 → compressor_gain_db 0 2 2 (1/2) = 0) ∧
     ((0 : ℚ) + 2/2 ≤ 1/2 →
       compressor_gain_db 0 2 2 (1/2) = (0 + ((1/2 : ℚ) - 0) / 2) - 1/2) ∧
     ((0 : ℚ) - 2/2 < 1/2 → (1/2 : ℚ) < 0 + 2/2 →
       compressor_gain_db 0 2 2 (1/2) =
         ((0 + (((0 : ℚ) + 2/2) - 0) / 2) - (0 + 2/2))
           * (((1/2 : ℚ) - (0 - 2/2)) / 2) ^ 2) ∧
     ((0 + (((0 : ℚ) + 2/2) - 0) / 2) - (0 + 2/2)) * ((1 : ℚ)) ^ 2
       = (0 + (((0 : ℚ) + 2/2) - 0) / 2) - (0 + 2/2)) :=
  ⟨by norm_num, by norm_num,
   compressor_gain_soft_knee 0 2 2 (1/2) (by norm_num) (by norm_num)⟩

/-- C3: when the consumer loop finds the next block's ready flag unset, the
iteration increments the underrun counter by exactly one, issues no
transceiver command, leaves the last commanded frequency/power/transmit
state and the block position unchanged, and paces out exactly one sample
period before the next check; an iteration that finds the block ready
never touches the underrun counter. -/
theorem underrun_miss_behavior (s : ConsState) (blk : List SampleCmd) :
    cons_iter s false blk
      = ({ s with underruns := s.underruns + 1 }, [], sample_period_us) ∧
    (cons_iter s true blk).1.underruns = s.underruns :=
  ⟨rfl, rfl⟩

/-- One substep of the consumer's per-sample hardware-write logic, fully
characterised: the previously-commanded triple always becomes the sample's
values, and each command appears exactly when the corresponding value
differs. -/
lemma cons_substep_eq (c : SampleCmd) (l : ℤ × ℤ × Bool) :
    cons_substep c l =
      ((c.freq_steps, c.p_dbm, c.tx_on),
        (if c.tx_on ≠ l.2.2 then
            [if c.tx_on then RadioCmd.txCW else RadioCmd.standby] else [])
        ++ (if c.freq_steps ≠ l.1 then [RadioCmd.setFreq c.freq_steps] else [])
        ++ (if c.p_dbm ≠ l.2.1 then [RadioCmd.setPwr c.p_dbm] else [])) := by
  by_cases h1 : c.tx_on = l.2.2 <;> by_cases h2 : c.freq_steps = l.1 <;>
    by_cases h3 : c.p_dbm = l.2.1 <;>
    simp [cons_substep, h1, h2, h3]

/-- Once the previously-commanded triple matches the sample, further
substeps issue nothing. -/
lemma cons_sample_aux_fixed (c : SampleCmd) :
    ∀ k, cons_sample_aux k c (c.freq_steps, c.p_dbm, c.tx_on)
      = ((c.freq_steps, c.p_dbm, c.tx_on), []) := by
  intro k
  induction k with
  | zero => rfl
  | succ k ih => simp [cons_sample_aux, cons_substep_eq, ih]

/-- A transmit-state command is never a frequency command. -/
lemma tx_cmd_ne_setFreq (b : Bool) (z : ℤ) :
    (if b then RadioCmd.txCW else RadioCmd.standby) ≠ RadioCmd.setFreq z := by
  cases b <;> simp

/-- A transmit-state command is never a power command. -/
lemma tx_cmd_ne_setPwr (b : Bool) (z : ℤ) :
    (if b then RadioCmd.txCW else RadioCmd.standby) ≠ RadioCmd.setPwr z := by
  cases b <;> simp

/-- A frequency command is never a transmit-state command. -/
lemma setFreq_ne_tx_cmd (b : Bool) (z : ℤ) :
    RadioCmd.setFreq z ≠ (if b then RadioCmd.txCW else RadioCmd.standby) := by
  cases b <;> simp

/-- A power command is never a transmit-state command. -/
lemma setPwr_ne_tx_cmd (b : Bool) (z : ℤ) :
    RadioCmd.setPwr z ≠ (if b then RadioCmd.txCW else RadioCmd.standby) := by
  cases b <;> simp

/-- C8: for every drained sample, the consumer issues a transmit
start/standby command, a frequency-set command, and a power-set command
exactly when the corresponding value differs from the previously commanded
one (each at most once per sample, even though the check is repeated on
every dither substep); when all three are unchanged the sample causes no
hardware write at all, and afterwards the previously-commanded triple
equals the sample's values. -/
theorem minimal_diff_writes (ls lp : ℤ) (lt : Bool) (c : SampleCmd) :
    cons_sample c (ls, lp, lt) =
      ((c.freq_steps, c.p_dbm, c.tx_on),
        (if c.tx_on ≠ lt then
            [if c.tx_on then RadioCmd.txCW else RadioCmd.standby] else [])
        ++ (if c.freq_steps ≠ ls then [RadioCmd.setFreq c.freq_steps] else [])
        ++ (if c.p_dbm ≠ lp then [RadioCmd.setPwr c.p_dbm] else [])) ∧
    ((RadioCmd.setFreq c.freq_steps ∈ (cons_sample c (ls, lp, lt)).2 ↔
        c.freq_steps ≠ ls) ∧
     ((if c.tx_on then RadioCmd.txCW else RadioCmd.standby)
        ∈ (cons_sample c (ls, lp, lt)).2 ↔ c.tx_on ≠ lt) ∧
     (RadioCmd.setPwr c.p_dbm ∈ (cons_sample c (ls, lp, lt)).2 ↔
        c.p_dbm ≠ lp) ∧
     (c.freq_steps = ls → c.p_dbm = lp → c.tx_on = lt →
        (cons_sample c (ls, lp, lt)).2 = [])) := by
  have h4 : cons_sample c (ls, lp, lt)
      = ((cons_sample_aux 3 c (cons_substep c (ls, lp, lt)).1).1,
         (cons_substep c (ls, lp, lt)).2
           ++ (cons_sample_aux 3 c (cons_substep c (ls, lp, lt)).1).2) := rfl
  have heq : cons_sample c (ls, lp, lt) =
      ((c.freq_steps, c.p_dbm, c.tx_on),
        (if c.tx_on ≠ lt then
            [if c.tx_on then RadioCmd.txCW else RadioCmd.standby] else [])
        ++ (if c.freq_steps ≠ ls then [RadioCmd.setFreq c.freq_steps] else [])
        ++ (if c.p_dbm ≠ lp then [RadioCmd.setPwr c.p_dbm] else [])) := by
    rw [h4, cons_substep_eq, cons_sample_aux_fixed]
    simp
  refine ⟨heq, ?_, ?_, ?_, ?_⟩
  · rw [heq]
    by_cases h1 : c.tx_on = lt <;> by_cases h2 : c.freq_steps = ls <;>
      by_cases h3 : c.p_dbm = lp <;>
      simp [h1, h2, h3, tx_cmd_ne_setFreq, tx_cmd_ne_setPwr, setFreq_ne_tx_cmd, setPwr_ne_tx_cmd]
  · rw [heq]
    by_cases h1 : c.tx_on = lt <;> by_cases h2 : c.freq_steps = ls <;>
      by_cases h3 : c.p_dbm = lp <;>
      simp [h1, h2, h3, tx_cmd_ne_setFreq, tx_cmd_ne_setPwr, setFreq_ne_tx_cmd, setPwr_ne_tx_cmd]
  · rw [heq]
    by_cases h1 : c.tx_on = lt <;> by_cases h2 : c.freq_steps = ls <;>
      by_cases h3 : c.p_dbm = lp <;>
      simp [h1, h2, h3, tx_cmd_ne_setFreq, tx_cmd_ne_setPwr, setFreq_ne_tx_cmd, setPwr_ne_tx_cmd]
  · intro h1 h2 h3
    rw [heq]
    simp [h1, h2, h3]

/-- Witness for C8 at a concrete previous triple and sample. -/
theorem minimal_diff_writes_witness :
    (cons_sample ⟨7, -3, true⟩ (5, -3, false)).2
      = [RadioCmd.txCW, RadioCmd.setFreq 7] ∧
    (cons_sample ⟨5, -3, false⟩ (5, -3, false)).2 = [] := by
  have h1 := (minimal_diff_writes 5 (-3) false ⟨7, -3, true⟩).1
  have h2 := (minimal_diff_writes 5 (-3) false ⟨5, -3, false⟩).2.2.2.2
  refine ⟨?_, h2 rfl rfl rfl⟩
  rw [h1]
  simp

/-! ## Hilbert delay-line lemmas (for the group-delay claim) -/

/-- `getD` looks through an appended element below the original length. -/
lemma getD_append_left (l : List ℚ) (x : ℚ) (i : ℕ) (h : i < l.length) :
    (l ++ [x]).getD i 0 = l.getD i 0 := by
  simp [List.getD_eq_getElem?_getD, List.getElem?_append, h]

/-- `getD` at the old length of an appended list returns the new element. -/
lemma getD_append_length (l : List ℚ) (x : ℚ) :
    (l ++ [x]).getD l.length 0 = x := by
  simp [List.getD_eq_getElem?_getD]

/-- `getD` of a prefix agrees with `getD` of the list below the cut. -/
lemma getD_take (l : List ℚ) (n i : ℕ) (h : i < n) :
    (l.take n).getD i 0 = l.getD i 0 := by
  simp [List.getD_eq_getElem?_getD, List.getElem?_take, h]

/-- Feeding one more sample steps the Hilbert state once. -/
lemma hilbert_state_append (h : Fin HILBERT_TAPS → ℚ) (ys : List ℚ) (x : ℚ) :
    hilbert_state h (ys ++ [x]) = (hilbert_process h (hilbert_state h ys) x).1 := by
  simp [hilbert_state, List.foldl_append]

/-- The write index after `k` samples is `k` modulo the tap count. -/
lemma hilbert_state_idx (h : Fin HILBERT_TAPS → ℚ) (ys : List ℚ) :
    (hilbert_state h ys).idx = ys.length % HILBERT_TAPS := by
  induction ys using List.reverseRecOn with
  | nil => rfl
  | append_singleton ys x ih =>
      rw [hilbert_state_append]
      simp only [hilbert_process]
      rw [ih]
      simp only [HILBERT_TAPS, List.length_append, List.length_cons,
        List.length_nil]
      split <;> omega

/-- Contents of the delay line after feeding `ys`: the slot `d` places
behind the last write holds the input from `d` calls ago (and zero when
fewer than `d + 1` samples have ever been fed). -/
lemma hilbert_state_buf (h : Fin HILBERT_TAPS → ℚ) (ys : List ℚ) :
    ∀ d : ℕ, d < HILBERT_TAPS →
      (hilbert_state h ys).buf (hilbFin (ys.length + HILBERT_TAPS - 1 - d))
        = if d < ys.length then ys.getD (ys.length - 1 - d) 0 else 0 := by
  induction ys using List.reverseRecOn with
  | nil => intro d _; simp [hilbert_state, hilbert_zero]
  | append_singleton ys x ih =>
      intro d hd
      have hd247 : d < 247 := by simpa [HILBERT_TAPS] using hd
      rw [hilbert_state_append]
      simp only [hilbert_process]
      rw [hilbert_state_idx]
      by_cases hd0 : d = 0
      · subst hd0
        have hslot : hilbFin ((ys ++ [x]).length + HILBERT_TAPS - 1 - 0)
            = hilbFin (ys.length % HILBERT_TAPS) := by
          simp only [hilbFin, Fin.mk.injEq, List.length_append,
            List.length_cons, List.length_nil, HILBERT_TAPS]
          omega
        rw [hslot, Function.update_same]
        have hlen : (ys ++ [x]).length - 1 - 0 = ys.length := by
          simp
        rw [if_pos (by simp), hlen, getD_append_length]
      · have hne : hilbFin ((ys ++ [x]).length + HILBERT_TAPS - 1 - d)
            ≠ hilbFin (ys.length % HILBERT_TAPS) := by
          simp only [hilbFin, ne_eq, Fin.mk.injEq, List.length_append,
            List.length_cons, List.length_nil, HILBERT_TAPS]
          omega
        rw [Function.update_noteq hne]
        have harg : (ys ++ [x]).length + HILBERT_TAPS - 1 - d
            = ys.length + HILBERT_TAPS - 1 - (d - 1) := by
          simp only [List.length_append, List.length_cons, List.length_nil,
            HILBERT_TAPS]
          omega
        rw [harg, ih (d - 1) (by omega)]
        by_cases hdL : d < (ys ++ [x]).length
        · have h1 : d - 1 < ys.length := by
            simp only [List.length_append, List.length_cons,
              List.length_nil] at hdL
            omega
          rw [if_pos h1, if_pos hdL]
          have hidx2 : (ys ++ [x]).length - 1 - d = ys.length - 1 - (d - 1) := by
            simp only [List.length_append, List.length_cons, List.length_nil]
            omega
          rw [hidx2, getD_append_left]
          omega
        · have h1 : ¬ d - 1 < ys.length := by
            simp only [List.length_append, List.length_cons,
              List.length_nil] at hdL
            omega
          rw [if_neg h1, if_neg hdL]

set_option maxRecDepth 4000 in
/-- C9: the in-phase output of the `n`-th call to `hilbert_process` equals
the input supplied to call `n − M`, where `M = (HILBERT_TAPS − 1)/2` is the
group delay, and equals zero for the first `M` calls after
initialisation/reset. -/
theorem hilbert_inphase_group_delay (h : Fin HILBERT_TAPS → ℚ) (xs : List ℚ)
    (n : ℕ) (hn : n < xs.length) :
    hilbert_out_i h xs n
      = if hilbertM ≤ n then xs.getD (n - hilbertM) 0 else 0 := by
  have hM : hilbertM < HILBERT_TAPS := by
    simp only [hilbertM, HILBERT_TAPS]
    omega
  have htake : xs.take n ++ [xs.getD n 0] = xs.take (n + 1) := by
    have h1 := List.take_concat_get xs n hn
    rw [List.concat_eq_append] at h1
    rw [← h1]
    congr 2
    simp [List.getD_eq_getElem?_getD, List.getElem?_eq_getElem hn]
  have hlen : (xs.take (n + 1)).length = n + 1 := by
    simp [List.length_take]
    omega
  have hout : hilbert_out_i h xs n
      = (hilbert_process h (hilbert_state h (xs.take n)) (xs.getD n 0)).1.buf
          (hilbFin ((hilbert_state h (xs.take n)).idx + HILBERT_TAPS - hilbertM)) :=
    rfl
  have hbuf : (hilbert_process h (hilbert_state h (xs.take n)) (xs.getD n 0)).1.buf
      = (hilbert_state h (xs.take (n + 1))).buf := by
    rw [← htake, hilbert_state_append]
  have hidx : (hilbert_state h (xs.take n)).idx = n % HILBERT_TAPS := by
    rw [hilbert_state_idx]
    congr 1
    simp [List.length_take]
    omega
  have hslot : hilbFin (n % HILBERT_TAPS + HILBERT_TAPS - hilbertM)
      = hilbFin ((xs.take (n + 1)).length + HILBERT_TAPS - 1 - hilbertM) := by
    simp only [hilbFin, Fin.mk.injEq, hlen, HILBERT_TAPS, hilbertM]
    omega
  rw [hout, hbuf, hidx, hslot,
    hilbert_state_buf h (xs.take (n + 1)) hilbertM hM, hlen]
  by_cases hc : hilbertM ≤ n
  · rw [if_pos (by omega), if_pos hc]
    have : n + 1 - 1 - hilbertM = n - hilbertM := by omega
    rw [this, getD_take]
    omega
  · rw [if_neg (by omega), if_neg hc]

/-- Witness for C9 on the one-sample stream `[5]` at call 0 (inside the
initial group-delay window, so the in-phase output is zero). -/
theorem hilbert_inphase_group_delay_witness :
    (0 : ℕ) < ([(5 : ℚ)]).length ∧
      hilbert_out_i (fun _ => 0) [(5 : ℚ)] 0
        = if hilbertM ≤ 0 then ([(5 : ℚ)]).getD (0 - hilbertM) 0 else 0 :=
  ⟨by norm_num, hilbert_inphase_group_delay (fun _ => 0) [(5 : ℚ)] 0 (by norm_num)⟩

/-! ## Resampler reseeding (C5) -/

/-- A primed resampler state tracking a 48 kHz host rate, as it stands after
some earlier calls; used to probe the rate-change behaviour. -/
def c5state : ResampState :=
  { src_rate := 48000, base_step := 393216, smooth_step := 393216, phase := 0,
    sm1 := ⟨101, 101⟩, s0 := ⟨102, 102⟩, s1 := ⟨103, 103⟩, s2 := ⟨104, 104⟩,
    primed := true }

/-- Twelve distinguishable frames queued in the USB ring buffer. -/
def c5ring : List StereoFrame :=
  [⟨1, 1⟩, ⟨2, 2⟩, ⟨3, 3⟩, ⟨4, 4⟩, ⟨5, 5⟩, ⟨6, 6⟩,
   ⟨7, 7⟩, ⟨8, 8⟩, ⟨9, 9⟩, ⟨10, 10⟩, ⟨11, 11⟩, ⟨12, 12⟩]

/-- C5 counterexample: on a host rate change (48000 → 44100) with a primed
state, the code does not reseed the interpolation state from the ring
buffer: the held frames keep sliding forward from their previous values
(`s2` becomes frame 5), while the spec-described reseeding variant would
have restarted from the buffer head (`s2` would be frame 9).  Only the step
size is recomputed. -/
theorem resampler_reseed_counterexample :
    (usb_audio_get_mono_8k 44100 c5state c5ring).2.1.s2 = ⟨5, 5⟩ ∧
    (usb_audio_get_mono_8k_specReseed 44100 c5state c5ring).2.1.s2 = ⟨9, 9⟩ ∧
    (usb_audio_get_mono_8k 44100 c5state c5ring).2.1
      ≠ (usb_audio_get_mono_8k_specReseed 44100 c5state c5ring).2.1 := by
  refine ⟨by decide, by decide, by decide⟩

/-- C5 (amended): on start (unprimed state) the interpolation state — the
four held frames and the phase accumulator — is seeded from the current
ring-buffer contents, zero-filled if the buffer is empty; but on a
subsequent host rate change only the base and smoothed step sizes are
recomputed: the call behaves exactly like a call on the same state with
just the three rate/step fields pre-updated, so the held frames and phase
are carried over rather than reseeded (a primed state is never reseeded). -/
theorem resampler_reseed_amended (sr0 : ℕ) (s : ResampState)
    (ring : List StereoFrame) :
    (sr0 ≠ 0 → sr0 ≠ s.src_rate →
      usb_audio_get_mono_8k sr0 s ring
        = usb_audio_get_mono_8k sr0
            { s with src_rate := sr0,
                     base_step := sr0 * 65536 / WAV_SAMPLE_RATE,
                     smooth_step := sr0 * 65536 / WAV_SAMPLE_RATE } ring) ∧
    (s.primed = true → resamp_prime s ring = (s, ring)) ∧
    (s.primed = false →
      resamp_prime s ring
        = ({ s with sm1 := ring.getD 0 ⟨0, 0⟩, s0 := ring.getD 1 ⟨0, 0⟩,
                    s1 := ring.getD 2 ⟨0, 0⟩, s2 := ring.getD 3 ⟨0, 0⟩,
                    phase := 0, primed := true }, ring.drop 4)) := by
  refine ⟨?_, ?_, ?_⟩
  · intro hsr hchange
    have hB : ¬ sr0 * 65536 / WAV_SAMPLE_RATE = 0 := by
      simp only [WAV_SAMPLE_RATE]
      have h1 : 1 ≤ sr0 := Nat.one_le_iff_ne_zero.mpr hsr
      have h2 : 65536 ≤ sr0 * 65536 := by
        calc 65536 = 1 * 65536 := by omega
        _ ≤ sr0 * 65536 := Nat.mul_le_mul_right _ h1
      omega
    have h1 : resamp_rate_update sr0 s
        = { s with src_rate := sr0,
                   base_step := sr0 * 65536 / WAV_SAMPLE_RATE,
                   smooth_step := sr0 * 65536 / WAV_SAMPLE_RATE } := by
      unfold resamp_rate_update
      simp [hsr, hchange]
    have h2 : resamp_rate_update sr0
        { s with src_rate := sr0,
                 base_step := sr0 * 65536 / WAV_SAMPLE_RATE,
                 smooth_step := sr0 * 65536 / WAV_SAMPLE_RATE }
        = { s with src_rate := sr0,
                   base_step := sr0 * 65536 / WAV_SAMPLE_RATE,
                   smooth_step := sr0 * 65536 / WAV_SAMPLE_RATE } := by
      unfold resamp_rate_update
      simp [hsr, hB]
    unfold usb_audio_get_mono_8k
    rw [h1, h2]
  · intro hp
    unfold resamp_prime
    rw [if_pos hp]
  · intro hp
    unfold resamp_prime
    rw [if_neg (by simp [hp])]
    rcases ring with _ | ⟨a, _ | ⟨b, _ | ⟨c, _ | ⟨d, t⟩⟩⟩⟩ <;>
      simp [popOr]

/-- Witness for the amended C5 at the concrete rate change 48000 → 44100. -/
theorem resampler_reseed_amended_witness :
    (44100 : ℕ) ≠ 0 ∧ (44100 : ℕ) ≠ c5state.src_rate ∧
      usb_audio_get_mono_8k 44100 c5state c5ring
        = usb_audio_get_mono_8k 44100
            { c5state with src_rate := 44100,
                           base_step := 44100 * 65536 / WAV_SAMPLE_RATE,
                           smooth_step := 44100 * 65536 / WAV_SAMPLE_RATE } c5ring :=
  ⟨by decide, by decide,
   (resampler_reseed_amended 44100 c5state c5ring).1 (by decide) (by decide)⟩

/-! ## Zero-input propagation lemmas (for the silence-reset claim) -/

/-- All filter states, the Hilbert delay line and every RF synthesis
accumulator of a producer state are zero. -/
def zeroedDSP (s : ProducerState) : Prop :=
  s.eq_low.z1 = 0 ∧ s.eq_low.z2 = 0 ∧ s.eq_high.z1 = 0 ∧ s.eq_high.z2 = 0 ∧
  s.comp_env = 0 ∧
  (∀ q ∈ s.bp_hpf, q.z1 = 0 ∧ q.z2 = 0) ∧
  (∀ q ∈ s.bp_lpf, q.z1 = 0 ∧ q.z2 = 0) ∧
  (∀ i, s.hilb.buf i = 0) ∧
  s.theta_prev = 0 ∧ s.f_acc = 0 ∧ s.p_acc = 0 ∧ s.tx_acc = 0

/-- A zero-state biquad maps a zero sample to a zero sample and stays in
the zero state. -/
lemma biquad_process_zero_state (q : Biquad) (h1 : q.z1 = 0) (h2 : q.z2 = 0) :
    biquad_process q 0 = (q, 0) := by
  cases q
  simp_all [biquad_process]

/-- A cascade of zero-state biquads maps a zero sample to a zero sample and
stays in the zero state, whatever the stage count. -/
lemma biquad_chain_zero_state :
    ∀ (n : ℕ) (qs : List Biquad), (∀ q ∈ qs, q.z1 = 0 ∧ q.z2 = 0) →
      biquad_chain n qs 0 = (qs, 0)
  | _, [], _ => by cases ‹ℕ› <;> rfl
  | 0, _ :: _, _ => rfl
  | n + 1, q :: qs, h => by
      have hq := h q (List.mem_cons_self q qs)
      have ht : ∀ p ∈ qs, p.z1 = 0 ∧ p.z2 = 0 :=
        fun p hp => h p (List.mem_cons_of_mem q hp)
      simp [biquad_chain, biquad_process_zero_state q hq.1 hq.2,
        biquad_chain_zero_state n qs ht]

/-- The compressor, from a zero envelope, maps a zero sample to a zero
sample and keeps a zero envelope (whatever the gain curve evaluates to). -/
lemma compressor_process_zero (lq pq : ℚ → ℚ) (c : CompParams) :
    compressor_process lq pq c 0 0 = (0, 0) := by
  simp [compressor_process]

/-- The Hilbert filter on an all-zero delay line maps a zero sample to zero
quadrature and in-phase outputs; the delay line stays all-zero and only the
write index advances. -/
lemma hilbert_process_zero_state (h : Fin HILBERT_TAPS → ℚ) (s : HilbState)
    (hzb : ∀ i, s.buf i = 0) :
    hilbert_process h s 0
      = (⟨s.buf, if HILBERT_TAPS ≤ s.idx + 1 then 0 else s.idx + 1⟩, 0, 0) := by
  have hupd : Function.update s.buf (hilbFin s.idx) 0 = s.buf := by
    funext i
    rcases eq_or_ne i (hilbFin s.idx) with rfl | hne
    · rw [Function.update_same, hzb]
    · rw [Function.update_noteq hne]
  simp [hilbert_process, hupd, hzb]

/-- The frequency quantizer at a zero accumulator and zero target emits no
step and keeps a zero accumulator. -/
lemma freq_quant_zero : freq_quant 0 0 = (0, 0) := by
  norm_num [freq_quant]

/-- `duty_from_A 0 = 0`. -/
lemma duty_from_A_zero : duty_from_A 0 = 0 := by
  simp [duty_from_A]

/-- The power/duty quantizer at a zero envelope and zero accumulators
commands minimum power with transmission off and keeps zero accumulators. -/
lemma power_quantize_zero (lq : ℚ → ℚ) (pm : ℤ) (ag am : ℚ) :
    power_quantize lq pm ag am 0 0 0 = (PWR_MIN_DBM, false, 0, 0) := by
  norm_num [power_quantize, duty_from_A_zero, tx_gate]

/-- The whole shaping-and-synthesis chain, fed a zero sample from a fully
zeroed state, leaves every filter state, the delay-line contents and every
accumulator at zero (only the Hilbert write index advances) and commands
the base frequency at minimum power with transmission off. -/
lemma chain_process_zeroed_eq (P : ProducerParams) (s : ProducerState)
    (hz : zeroedDSP s) (hpi : 0 ≤ P.piq) (hsq : P.sqrtq 0 = 0)
    (hat : P.atan2q 0 0 = 0) (hlim : 0 ≤ P.comp_out_limit) :
    chain_process P s 0
      = ({ s with
           hilb := HilbState.mk s.hilb.buf
             (if HILBERT_TAPS ≤ s.hilb.idx + 1 then 0 else s.hilb.idx + 1),
           theta_prev := 0, f_acc := 0, p_acc := 0, tx_acc := 0 },
         SampleCmd.mk P.base_steps PWR_MIN_DBM false) := by
  obtain ⟨he1, he2, he3, he4, hce, hbh, hbl, hhb, hth, hfa, hpa, hta⟩ := hz
  have hl1 : ¬ (P.comp_out_limit < (0 : ℚ)) := not_lt.mpr hlim
  have hl2 : ¬ ((0 : ℚ) < -P.comp_out_limit) := not_lt.mpr (neg_nonpos.mpr hlim)
  have hp1 : ¬ (P.piq < (0 : ℚ)) := not_lt.mpr hpi
  have hp2 : ¬ ((0 : ℚ) < -P.piq) := not_lt.mpr (neg_nonpos.mpr hpi)
  have hclamp1 : ¬ (F_OFF_LIMIT_HZ < (0 : ℚ)) := by norm_num [F_OFF_LIMIT_HZ]
  have hclamp2 : ¬ ((0 : ℚ) < -F_OFF_LIMIT_HZ) := by norm_num [F_OFF_LIMIT_HZ]
  cases hE : P.enable_eq <;> cases hC : P.enable_comp <;>
    cases hBp : P.enable_bandpass <;>
    simp [chain_process, hE, hC, hBp,
      biquad_process_zero_state s.eq_low he1 he2,
      biquad_process_zero_state s.eq_high he3 he4,
      biquad_chain_zero_state P.bp_stages s.bp_hpf hbh,
      biquad_chain_zero_state P.bp_stages s.bp_lpf hbl,
      compressor_process_zero, hilbert_process_zero_state P.h s.hilb hhb,
      hl1, hl2, hp1, hp2, hclamp1, hclamp2,
      hth, hfa, hpa, hta, hce, hsq, hat, IQ_GAIN_CORR,
      freq_quant_zero, power_quantize_zero]

/-- Feeding one more sample steps the producer once. -/
lemma producer_run_append (P : ProducerParams) (s : ProducerState)
    (ys : List ℚ) (x : ℚ) :
    producer_run P s (ys ++ [x]) = (producer_step P (producer_run P s ys) x).1 := by
  simp [producer_run, List.foldl_append]

/-- The synthesis chain never touches the silence counter. -/
lemma chain_process_silence_ctr (P : ProducerParams) (s : ProducerState) (x : ℚ) :
    (chain_process P s x).1.silence_ctr = s.silence_ctr := rfl

/-- Below the threshold, a zero input sample just increments the silence
counter. -/
lemma silence_update_zero_ctr (t : ProducerState)
    (h : t.silence_ctr + 1 < silence_samples) :
    silence_update t 0 = { t with silence_ctr := t.silence_ctr + 1 } := by
  simp only [silence_update]
  rw [if_pos (by norm_num : |(0 : ℚ)| < 1/100000),
    if_pos (show t.silence_ctr < silence_samples by omega),
    if_neg (show ¬ t.silence_ctr + 1 = silence_samples by omega)]

/-- At the threshold, a zero input sample fires the one-shot reset. -/
lemma silence_update_fires (t : ProducerState)
    (h : t.silence_ctr + 1 = silence_samples) :
    silence_update t 0 = silence_reset_state t := by
  simp only [silence_update]
  rw [if_pos (by norm_num : |(0 : ℚ)| < 1/100000),
    if_pos (show t.silence_ctr < silence_samples by omega),
    if_pos h]

/-- The reset state is fully zeroed. -/
lemma silence_reset_state_zeroed (s : ProducerState) :
    zeroedDSP (silence_reset_state s) := by
  refine ⟨rfl, rfl, rfl, rfl, rfl, ?_, ?_, fun i => rfl, rfl, rfl, rfl, rfl⟩ <;>
  · intro q hq
    simp only [silence_reset_state, List.mem_map] at hq
    obtain ⟨a, _, rfl⟩ := hq
    exact ⟨rfl, rfl⟩

/-- Under zero input the silence counter counts the samples, up to the
threshold. -/
lemma producer_run_silence_ctr (P : ProducerParams) (s0 : ProducerState)
    (h0 : s0.silence_ctr = 0) :
    ∀ k, k < silence_samples →
      (producer_run P s0 (List.replicate k 0)).silence_ctr = k := by
  intro k
  induction k with
  | zero => intro _; simpa [producer_run] using h0
  | succ k ih =>
      intro hk
      have hc := ih (by omega)
      rw [List.replicate_succ', producer_run_append]
      unfold producer_step
      rw [chain_process_silence_ctr,
        silence_update_zero_ctr _ (by rw [hc]; omega)]
      simp [hc]

set_option maxRecDepth 4000 in
/-- C6: after `silence_samples` consecutive zero samples (starting from a
clean counter), the producer state is fully zeroed — all biquad states
(bandpass stages and EQ shelves), the compressor envelope, the entire
Hilbert delay line, the previous carrier phase and the three RF dither
accumulators are simultaneously zero, the reset having fired exactly once
(the counter sits one past the threshold) — so the very next sample, zero
or not, is processed through this freshly zeroed chain.  The hypotheses
pin down only the unproblematic values of the abstracted transcendental
library calls (`sqrtf 0 = 0`, `atan2f 0 0 = 0`, `π > 0` as a float, a
nonnegative output limiter). -/
theorem silence_reset_completeness (P : ProducerParams) (s0 : ProducerState)
    (h0 : s0.silence_ctr = 0) (hpi : 0 ≤ P.piq) (hsq : P.sqrtq 0 = 0)
    (hat : P.atan2q 0 0 = 0) (hlim : 0 ≤ P.comp_out_limit) :
    zeroedDSP (producer_run P s0 (List.replicate silence_samples 0)) ∧
    (producer_run P s0 (List.replicate silence_samples 0)).silence_ctr
      = silence_samples + 1 := by
  have hN : 1 ≤ silence_samples := by
    norm_num [silence_samples, WAV_SAMPLE_RATE, SILENCE_SECONDS]
  have hsplit : List.replicate silence_samples (0 : ℚ)
      = List.replicate (silence_samples - 1) 0 ++ [0] := by
    rw [← List.replicate_succ']
    congr 1
  have hctr := producer_run_silence_ctr P s0 h0 (silence_samples - 1) (by omega)
  rw [hsplit, producer_run_append]
  unfold producer_step
  rw [silence_update_fires _ (by rw [hctr]; omega)]
  generalize producer_run P s0 (List.replicate (silence_samples - 1) 0) = t
  have hz := silence_reset_state_zeroed t
  have heq := chain_process_zeroed_eq P (silence_reset_state t) hz hpi hsq hat hlim
  rw [heq]
  obtain ⟨he1, he2, he3, he4, hce, hbh, hbl, hhb, hth, hfa, hpa, hta⟩ := hz
  exact ⟨⟨he1, he2, he3, he4, hce, hbh, hbl, hhb, rfl, rfl, rfl, rfl⟩, rfl⟩

/-! ## Accumulator range invariants (C10) -/

/-- The three per-sample dithering accumulators all lie in `[0, 1)`. -/
def accs_in01 (s : ProducerState) : Prop :=
  0 ≤ s.f_acc ∧ s.f_acc < 1 ∧ 0 ≤ s.p_acc ∧ s.p_acc < 1 ∧
  0 ≤ s.tx_acc ∧ s.tx_acc < 1

/-- The duty fraction is never negative. -/
lemma duty_from_A_nonneg (A : ℚ) : 0 ≤ duty_from_A A := by
  unfold duty_from_A
  split_ifs with h1 h2
  · exact le_rfl
  · norm_num
  · exact le_of_lt (div_pos (not_le.mp h1) (by norm_num [GATE_A_REF]))

/-- Closed form of the gate accumulator update. -/
lemma tx_gate_snd (acc d : ℚ) :
    (tx_gate acc d).2 = if 1 ≤ acc + d then acc + d - 1 else acc + d := by
  unfold tx_gate
  split <;> rfl

/-- The gate accumulator stays in `[0, 1)` for increments in `[0, 1)`. -/
lemma tx_gate_acc_mem (acc d : ℚ) (h0 : 0 ≤ acc) (h1 : acc < 1)
    (hd0 : 0 ≤ d) (hd1 : d < 1) :
    0 ≤ (tx_gate acc d).2 ∧ (tx_gate acc d).2 < 1 := by
  rw [tx_gate_snd]
  split <;> exact ⟨by linarith, by linarith⟩

/-- Closed form of the frequency-dither accumulator update. -/
lemma freq_quant_snd (acc want : ℚ) :
    (freq_quant acc want).2
      = if 1 ≤ acc + (want - (⌊want⌋ : ℤ)) then acc + (want - (⌊want⌋ : ℤ)) - 1
        else acc + (want - (⌊want⌋ : ℤ)) := by
  simp only [freq_quant]
  split <;> rfl

/-- The frequency-dither accumulator stays in `[0, 1)`: the per-sample
increment is the fractional part of the target, which lies in `[0, 1)`,
and one is subtracted exactly when the sum reaches one. -/
lemma freq_quant_acc_mem (acc want : ℚ) (h0 : 0 ≤ acc) (h1 : acc < 1) :
    0 ≤ (freq_quant acc want).2 ∧ (freq_quant acc want).2 < 1 := by
  have hf0 : (0 : ℚ) ≤ want - (⌊want⌋ : ℤ) := by
    have := Int.floor_le want
    linarith
  have hf1 : want - ((⌊want⌋ : ℤ) : ℚ) < 1 := by
    have := Int.lt_floor_add_one want
    linarith
  rw [freq_quant_snd]
  split <;> exact ⟨by linarith, by linarith⟩

/-- The power and duty accumulators stay in `[0, 1)` across the power/duty
quantizer, whatever the envelope, gain curve and power ceiling are. -/
lemma power_quantize_acc_mem (lq : ℚ → ℚ) (pm : ℤ) (ag am A pa ta : ℚ)
    (hp0 : 0 ≤ pa) (hp1 : pa < 1) (ht0 : 0 ≤ ta) (ht1 : ta < 1) :
    (0 ≤ (power_quantize lq pm ag am A pa ta).2.2.1 ∧
     (power_quantize lq pm ag am A pa ta).2.2.1 < 1) ∧
    (0 ≤ (power_quantize lq pm ag am A pa ta).2.2.2 ∧
     (power_quantize lq pm ag am A pa ta).2.2.2 < 1) := by
  have hd0 := duty_from_A_nonneg A
  simp only [power_quantize]
  by_cases hduty : duty_from_A A < 1
  · rw [if_pos hduty]
    exact ⟨⟨hp0, hp1⟩, tx_gate_acc_mem ta (duty_from_A A) ht0 ht1 hd0 hduty⟩
  · rw [if_neg hduty]
    set Aeff : ℚ := if A * ag < am then am else A * ag with hAeff
    set praw : ℚ := (pm : ℚ) + 20 * lq Aeff with hpraw
    set pd1 : ℚ := if (pm : ℚ) < praw then (pm : ℚ) else praw with hpd1
    set pd : ℚ := if pd1 < (PWR_MIN_DBM : ℚ) then (PWR_MIN_DBM : ℚ) else pd1 with hpd
    set pl0 : ℤ := ⌊pd⌋ with hpl0
    set pl : ℤ := if pl0 < PWR_MIN_DBM then PWR_MIN_DBM else pl0 with hpl
    set ph : ℤ := if pm < pl0 + 1 then pm else pl0 + 1 with hph
    set fr0 : ℚ := pd - (pl : ℚ) with hfr0
    set fr1 : ℚ := if fr0 < 0 then 0 else fr0 with hfr1
    set fr : ℚ := if 1 < fr1 then 1 else fr1 with hfr
    have hpdmin : (PWR_MIN_DBM : ℚ) ≤ pd := by
      rw [hpd]
      split
      · exact le_rfl
      · next hcc => exact le_of_not_lt hcc
    have hpl0min : PWR_MIN_DBM ≤ pl0 := by
      rw [hpl0]
      exact Int.le_floor.mpr hpdmin
    have hpleq : pl = pl0 := by
      rw [hpl, if_neg (not_lt.mpr hpl0min)]
    have hfl : (pl0 : ℚ) ≤ pd := by
      rw [hpl0]
      exact Int.floor_le pd
    have hfu : pd < (pl0 : ℚ) + 1 := by
      rw [hpl0]
      exact_mod_cast Int.lt_floor_add_one pd
    have hfr0b : 0 ≤ fr0 ∧ fr0 < 1 := by
      rw [hfr0, hpleq]
      exact ⟨by linarith, by linarith⟩
    have hfr1e : fr1 = fr0 := by
      rw [hfr1, if_neg (not_lt.mpr hfr0b.1)]
    have hfre : fr = fr0 := by
      rw [hfr, hfr1e, if_neg (not_lt.mpr (le_of_lt hfr0b.2))]
    have hfrb : 0 ≤ fr ∧ fr < 1 := by
      rw [hfre]
      exact hfr0b
    have hfr_zero : ph = pl → fr = 0 := by
      intro hphl
      rw [hpleq, hph] at hphl
      by_cases hcc : pm < pl0 + 1
      · rw [if_pos hcc] at hphl
        have hpdle : pd ≤ (pm : ℚ) := by
          rw [hpd]
          split
          · have h2 : PWR_MIN_DBM ≤ pm := hphl ▸ hpl0min
            exact_mod_cast h2
          · rw [hpd1]
            split
            · exact le_rfl
            · next hcc2 => exact le_of_not_lt hcc2
        have hpmq : (pm : ℚ) = (pl0 : ℚ) := by
          exact_mod_cast hphl
        rw [hfre, hfr0, hpleq]
        have : (pl0 : ℚ) = pd := by linarith
        linarith
      · rw [if_neg hcc] at hphl
        omega
    by_cases hc : 1 ≤ pa + fr ∧ ph ≠ pl
    · rw [if_pos hc]
      refine ⟨⟨?_, ?_⟩, ?_, ?_⟩
      · show (0 : ℚ) ≤ pa + fr - 1
        linarith [hc.1]
      · show pa + fr - 1 < 1
        linarith [hfrb.2]
      · exact ht0
      · exact ht1
    · rw [if_neg hc]
      refine ⟨⟨?_, ?_⟩, ?_, ?_⟩
      · show (0 : ℚ) ≤ pa + fr
        linarith [hfrb.1]
      · show pa + fr < 1
        rcases not_and_or.mp hc with h | h
        · linarith [not_le.mp h]
        · have heq0 := hfr_zero (not_not.mp h)
          rw [heq0]
          linarith
      · exact ht0
      · exact ht1

/-- The silence logic keeps the accumulators in range (the one-shot reset
returns them to zero). -/
lemma silence_update_accs (s : ProducerState) (x : ℚ) (h : accs_in01 s) :
    accs_in01 (silence_update s x) := by
  simp only [silence_update]
  by_cases hc : (if |x| < 1/100000 then
      (if s.silence_ctr < silence_samples then s.silence_ctr + 1 else s.silence_ctr)
    else 0) = silence_samples
  · rw [if_pos hc]
    exact ⟨le_rfl, (by norm_num : (0 : ℚ) < 1), le_rfl,
      (by norm_num : (0 : ℚ) < 1), le_rfl, (by norm_num : (0 : ℚ) < 1)⟩
  · rw [if_neg hc]
    exact h

/-- One full producer step keeps the accumulators in `[0, 1)`. -/
lemma producer_step_accs (P : ProducerParams) (s : ProducerState) (x : ℚ)
    (h : accs_in01 s) : accs_in01 (producer_step P s x).1 := by
  obtain ⟨hf0, hf1, hp0, hp1, ht0, ht1⟩ := silence_update_accs s x h
  unfold producer_step
  refine ⟨?_, ?_, ?_, ?_, ?_, ?_⟩
  · exact (freq_quant_acc_mem _ _ hf0 hf1).1
  · exact (freq_quant_acc_mem _ _ hf0 hf1).2
  · exact (power_quantize_acc_mem _ _ _ _ _ _ _ hp0 hp1 ht0 ht1).1.1
  · exact (power_quantize_acc_mem _ _ _ _ _ _ _ hp0 hp1 ht0 ht1).1.2
  · exact (power_quantize_acc_mem _ _ _ _ _ _ _ hp0 hp1 ht0 ht1).2.1
  · exact (power_quantize_acc_mem _ _ _ _ _ _ _ hp0 hp1 ht0 ht1).2.2

/-- The accumulator range invariant is preserved along any run. -/
lemma producer_run_accs (P : ProducerParams) :
    ∀ (xs : List ℚ) (s : ProducerState),
      accs_in01 s → accs_in01 (producer_run P s xs)
  | [], _, h => h
  | x :: xs, s, h => producer_run_accs P xs _ (producer_step_accs P s x h)

/-- C10: starting from their initial zero values, the frequency-dither
accumulator `f_acc`, the power-dither accumulator `p_acc` and the
duty-gating accumulator `tx_acc` all remain in `[0, 1)` after every sample
processed by the producer loop, for every input stream and configuration:
each per-sample increment lies in `[0, 1)` and one is subtracted exactly
when an accumulator would reach one. -/
theorem rf_accumulators_unit_interval (P : ProducerParams)
    (s0 : ProducerState) (xs : List ℚ) (hf : s0.f_acc = 0)
    (hp : s0.p_acc = 0) (ht : s0.tx_acc = 0) :
    ∀ n : ℕ, accs_in01 (producer_run P s0 (xs.take n)) := by
  intro n
  apply producer_run_accs
  refine ⟨?_, ?_, ?_, ?_, ?_, ?_⟩ <;> simp [hf, hp, ht]

/-! ## Concrete probe configuration for witnesses -/

/-- A concrete parameter bundle (all DSP stages disabled, trivial oracle
functions). -/
def probeParams : ProducerParams :=
  { enable_eq := false
    enable_comp := false
    enable_bandpass := false
    bp_stages := 0
    comp_out_limit := 0
    comp := ⟨0, 0, 0, 0, 0, 0⟩
    amp_gain := 0
    amp_min_a := 0
    pwr_max := 13
    base_steps := 0
    h := fun _ => 0
    cphi := 1
    sphi := 0
    piq := 0
    sqrtq := fun _ => 0
    atan2q := fun _ _ => 0
    log10q := fun _ => 0
    pow10q := fun _ => 0 }

/-- A concrete freshly-initialised producer state. -/
def probeState : ProducerState :=
  { silence_ctr := 0
    eq_low := ⟨0, 0, 0, 0, 0, 0, 0⟩
    eq_high := ⟨0, 0, 0, 0, 0, 0, 0⟩
    comp_env := 0
    bp_hpf := []
    bp_lpf := []
    hilb := hilbert_zero
    theta_prev := 0
    f_acc := 0
    p_acc := 0
    tx_acc := 0 }

/-- Witness for C10 on the concrete probe configuration. -/
theorem rf_accumulators_unit_interval_witness :
    probeState.f_acc = 0 ∧ probeState.p_acc = 0 ∧ probeState.tx_acc = 0 ∧
      ∀ n : ℕ, accs_in01 (producer_run probeParams probeState ([(1 : ℚ)].take n)) :=
  ⟨rfl, rfl, rfl,
   rf_accumulators_unit_interval probeParams probeState [(1 : ℚ)] rfl rfl rfl⟩

/-- Witness for C6 on the concrete probe configuration. -/
theorem silence_reset_completeness_witness :
    probeState.silence_ctr = 0 ∧ (0 : ℚ) ≤ probeParams.piq ∧
      probeParams.sqrtq 0 = 0 ∧ probeParams.atan2q 0 0 = 0 ∧
      (0 : ℚ) ≤ probeParams.comp_out_limit ∧
      (zeroedDSP (producer_run probeParams probeState
          (List.replicate silence_samples 0)) ∧
       (producer_run probeParams probeState
          (List.replicate silence_samples 0)).silence_ctr
         = silence_samples + 1) :=
  ⟨rfl, le_rfl, rfl, rfl, le_rfl,
   silence_reset_completeness probeParams probeState rfl le_rfl rfl rfl le_rfl⟩

end SX1280TX
